import Mathlib

/-!
# Verification of the CodeContext backend services

Shallow embedding of the chunking, vector-store and retrieval services of
the `kaduva-CodeContext-AI` backend (`backend/app/services/chunking.py`,
`vector_store.py`, `retrieval.py`, configuration in `backend/app/config.py`).

Conventions of the embedding:

* Python strings are Lean `String`s; `str.splitlines()` is modelled by
  `splitlines` below (handling `\n`, `\r\n` and `\r` line breaks with
  Python's rule that a trailing line break produces no final empty line).
* Python's `str.strip()` / `str.rstrip()` are `pyStrip` / `pyRstrip`
  (ASCII whitespace).
* `numpy` floating-point arithmetic is idealised as exact rational
  arithmetic over `ℚ`.  `np.linalg.norm` (a square root, which is not
  rational) is passed in as a function parameter `nrm`; the theorems
  assume of it exactly the defining property of the Euclidean norm
  (`0 ≤ nrm v` and `(nrm v)^2 = dot v v`).
* `np.argsort` is modelled as a stable ascending sort (insertion sort on
  indices, ties broken by index), which matches numpy's observable
  behaviour on the small arrays the service handles.
* The Python `ast` module and the JS/TS regex scan are external to the
  translated functions: `_chunk_python` receives the parse result (a list
  of top-level defs/classes, or `none` for a `SyntaxError`) and
  `_chunk_javascript` receives the list of boundary lines found by the
  regex loop, as parameters.
* Settings are the defaults of `config.py`:
  `MAX_CHUNK_LINES = 200`, `FALLBACK_CHUNK_LINES = 150`,
  `DEFAULT_TOP_K = 20`.
-/

/-- Split a list of characters at line breaks (`\n`, `\r\n`, `\r`),
accumulator holds the current line reversed. -/
def splitLinesAux : List Char → List Char → List (List Char)
  | [], acc => [acc.reverse]
  | '\r' :: '\n' :: rest, acc => acc.reverse :: splitLinesAux rest []
  | '\n' :: rest, acc => acc.reverse :: splitLinesAux rest []
  | '\r' :: rest, acc => acc.reverse :: splitLinesAux rest []
  | c :: rest, acc => splitLinesAux rest (c :: acc)

/-- Python `str.splitlines()`: split at line breaks; a trailing line break
produces no final empty line, and `"".splitlines() = []`. -/
def splitlines (s : String) : List String :=
  let parts := splitLinesAux s.data []
  let parts := if parts.getLast? = some [] then parts.dropLast else parts
  parts.map fun l => String.mk l

/-- Python whitespace (the ASCII part relevant to source code). -/
def pyWS (c : Char) : Bool :=
  c = ' ' || c = '\t' || c = '\n' || c = '\r' || c = '\x0b' || c = '\x0c'

/-- Python `str.strip()` (ASCII whitespace). -/
def pyStrip (s : String) : String :=
  String.mk (((s.data.dropWhile pyWS).reverse.dropWhile pyWS).reverse)

/-- Python `str.rstrip()` (ASCII whitespace). -/
def pyRstrip (s : String) : String :=
  String.mk ((s.data.reverse.dropWhile pyWS).reverse)

/-- `"\n".join(lines[start-1:end])` for 1-based `start`, `end` —
the line-range join that the chunkers use. -/
def sliceJoin (lines : List String) (start stop : ℕ) : String :=
  String.intercalate "\n" (((lines.drop (start - 1)).take (stop - (start - 1))))

/-- `CodeChunk` dataclass from `chunking.py`. -/
structure CodeChunk where
  file_path : String
  symbol : String
  code : String
  language : String
  start_line : ℕ
  end_line : ℕ
deriving DecidableEq, Repr

/-- `MAX_CHUNK_LINES` from `config.py`. -/
def MAX_CHUNK_LINES : ℕ := 200

/-- `FALLBACK_CHUNK_LINES` from `config.py`. -/
def FALLBACK_CHUNK_LINES : ℕ := 150

/-- The loop of `_chunk_by_lines` for files longer than `MAX_CHUNK_LINES`:
emit a window of `FALLBACK_CHUNK_LINES` lines starting at 0-based line `i`,
then advance by `window - overlap = 150 - 20 = 130`. -/
def windowChunks (fp lang : String) (lines : List String) (i idx : ℕ) :
    List CodeChunk :=
  if h : i < lines.length then
    let e := min (i + FALLBACK_CHUNK_LINES) lines.length
    { file_path := fp
      symbol := "<block_" ++ toString idx ++ ">"
      code := sliceJoin lines (i + 1) e
      language := lang
      start_line := i + 1
      end_line := e } :: windowChunks fp lang lines (i + 130) (idx + 1)
  else []
termination_by lines.length - i
decreasing_by simp_wf; omega

/-- `_chunk_by_lines` from `chunking.py`: single chunk for files of at most
`MAX_CHUNK_LINES` lines, else overlapping fixed-size windows. -/
def chunkByLines (fp content lang : String) : List CodeChunk :=
  let lines := splitlines content
  if lines = [] then []
  else if lines.length ≤ MAX_CHUNK_LINES then
    [{ file_path := fp, symbol := "<file>", code := content, language := lang,
       start_line := 1, end_line := lines.length }]
  else windowChunks fp lang lines 0 0

/-- A Python `FunctionDef` / `AsyncFunctionDef` node as seen by
`_chunk_python`: its name, `lineno` and `end_lineno` (optional in the
`ast` API). -/
structure PyDef where
  name : String
  lineno : ℕ
  end_lineno : Option ℕ
deriving DecidableEq, Repr

/-- A top-level AST node of interest to `_chunk_python`.  Top-level
statements of other kinds emit no chunk and do not affect
`first_node_line`, so they are not represented. -/
inductive PyTop where
  | funcDef (d : PyDef)
  | classDef (name : String) (lineno : ℕ) (end_lineno : Option ℕ)
      (methods : List PyDef)
deriving DecidableEq, Repr

/-- `lineno` of a top-level node. -/
def PyTop.lineno : PyTop → ℕ
  | .funcDef d => d.lineno
  | .classDef _ l _ _ => l

/-- Python `node.end_lineno or start`: `None` and `0` are falsy. -/
def pyOr (e : Option ℕ) (start : ℕ) : ℕ :=
  match e with
  | none => start
  | some v => if v = 0 then start else v

/-- The module-preamble chunk of `_chunk_python`: docstring/imports before
the first def/class, kept only if non-blank and at least 3 lines after
stripping. -/
def pyPreamble (fp : String) (lines : List String) (nodes : List PyTop) :
    List CodeChunk :=
  match nodes.head? with
  | none => []
  | some n =>
    let l := n.lineno
    if 1 < l then
      let pre := pyStrip (sliceJoin lines 1 (l - 1))
      if pre ≠ "" ∧ 3 ≤ (splitlines pre).length then
        [{ file_path := fp, symbol := "<module>", code := pre,
           language := "python", start_line := 1, end_line := l - 1 }]
      else []
    else []

/-- The chunks `_chunk_python` emits for one top-level node: a function is
one chunk; a class is kept whole when `end - start ≤ MAX_CHUNK_LINES`,
else split into a header chunk (up to just before the first method, kept
only if non-blank) plus one chunk per method. -/
def chunkNode (fp : String) (lines : List String) : PyTop → List CodeChunk
  | .funcDef d =>
    let start := d.lineno
    let e := pyOr d.end_lineno start
    [{ file_path := fp, symbol := d.name, code := sliceJoin lines start e,
       language := "python", start_line := start, end_line := e }]
  | .classDef name start endln methods =>
    let e := pyOr endln start
    if e - start ≤ MAX_CHUNK_LINES then
      [{ file_path := fp, symbol := name, code := sliceJoin lines start e,
         language := "python", start_line := start, end_line := e }]
    else
      let headerEnd := match methods.head? with
        | some m => m.lineno - 1
        | none => start
      let header := sliceJoin lines start headerEnd
      (if pyStrip header ≠ "" then
        [{ file_path := fp, symbol := name ++ ".<header>", code := header,
           language := "python", start_line := start, end_line := headerEnd }]
      else []) ++
      methods.map fun m =>
        let ms := m.lineno
        let me := pyOr m.end_lineno ms
        { file_path := fp, symbol := name ++ "." ++ m.name,
          code := sliceJoin lines ms me, language := "python",
          start_line := ms, end_line := me }

/-- `_chunk_python` from `chunking.py`, given the result of `ast.parse`
(`none` models a `SyntaxError`, which makes the function return `[]`). -/
def pythonChunks (fp content : String) (tree : Option (List PyTop)) :
    List CodeChunk :=
  match tree with
  | none => []
  | some nodes =>
    let lines := splitlines content
    pyPreamble fp lines nodes ++ nodes.flatMap (chunkNode fp lines)

/-- The chunks `_chunk_javascript` emits for the boundary list found by the
regex scan: chunk `i` runs from boundary `i` to just before boundary `i+1`
(to end of file for the last boundary), right-stripped, and kept only if
non-blank. -/
def jsBody (fp lang : String) (lines : List String) :
    List (ℕ × String) → List CodeChunk
  | [] => []
  | (s, sym) :: rest =>
    let e := match rest.head? with
      | some b => b.1 - 1
      | none => lines.length - 1
    let code := pyRstrip (sliceJoin lines (s + 1) (e + 1))
    (if pyStrip code ≠ "" then
      [{ file_path := fp, symbol := sym, code := code, language := lang,
         start_line := s + 1, end_line := e + 1 }]
    else []) ++ jsBody fp lang lines rest

/-- `_chunk_javascript` from `chunking.py`, given the boundary lines
(0-based index paired with the extracted symbol) the regex loop finds. -/
def jsChunks (fp content lang : String) (bounds : List (ℕ × String)) :
    List CodeChunk :=
  let lines := splitlines content
  if lines = [] then []
  else match bounds.head? with
    | none => []
    | some b0 =>
      (if 0 < b0.1 then
        let pre := pyStrip (sliceJoin lines 1 b0.1)
        if pre ≠ "" ∧ 2 ≤ (splitlines pre).length then
          [{ file_path := fp, symbol := "<imports>", code := pre,
             language := lang, start_line := 1, end_line := b0.1 }]
        else []
      else []) ++ jsBody fp lang lines bounds

/-- `chunk_file` from `chunking.py`: AST chunking for Python, regex
chunking for JS/TS, line-window fallback whenever the specific strategy
yields nothing.  `tree` is the Python parse oracle, `bounds` the JS regex
oracle. -/
def chunkFile (tree : Option (List PyTop)) (bounds : List (ℕ × String))
    (fp content lang : String) : List CodeChunk :=
  if lang = "python" ∧ pythonChunks fp content tree ≠ [] then
    pythonChunks fp content tree
  else if (lang = "javascript" ∨ lang = "typescript") ∧
      jsChunks fp content lang bounds ≠ [] then
    jsChunks fp content lang bounds
  else chunkByLines fp content lang

/-- Python slice `l[a:b]` with possibly negative `int` indices
(negative indices count from the end; both ends are clamped to `[0, n]`). -/
def pySliceZ (l : List String) (a b : ℤ) : List String :=
  let n : ℤ := l.length
  let norm := fun (x : ℤ) => (max 0 (min (if x < 0 then x + n else x) n)).toNat
  (l.take (norm b)).drop (norm a)

/-- The `while i < len(lines)` loop of `_chunk_by_lines` with an arbitrary
configured window `W` (and the hard-coded overlap 20), fuelled: `none`
means the fuel ran out, i.e. the loop has not terminated within `fuel`
iterations.  `i` is an `ℤ` because `i += W - 20` can go negative when
`W < 20`. -/
def windowLoopFuel (W : ℤ) (fp lang : String) (lines : List String) :
    ℕ → ℤ → ℕ → Option (List CodeChunk)
  | 0, _, _ => none
  | fuel + 1, i, idx =>
    if i < (lines.length : ℤ) then
      let e := min (i + W) (lines.length : ℤ)
      match windowLoopFuel W fp lang lines fuel (i + (W - 20)) (idx + 1) with
      | none => none
      | some cs =>
        some ({ file_path := fp
                symbol := "<block_" ++ toString idx ++ ">"
                code := String.intercalate "\n" (pySliceZ lines i e)
                language := lang
                start_line := (i + 1).toNat
                end_line := e.toNat } :: cs)
    else some []

/-- `_chunk_by_lines` with an arbitrary configured `FALLBACK_CHUNK_LINES`
value `W`, fuelled (used to settle the termination claim about the
configuration). -/
def chunkByLinesGen (W : ℤ) (fuel : ℕ) (fp content lang : String) :
    Option (List CodeChunk) :=
  let lines := splitlines content
  if lines = [] then some []
  else if lines.length ≤ MAX_CHUNK_LINES then
    some [{ file_path := fp, symbol := "<file>", code := content,
            language := lang, start_line := 1, end_line := lines.length }]
  else windowLoopFuel W fp lang lines fuel 0 0

/-- Metadata dict stored for a chunk (`metadatas` entries); `meta.get(k)`
returns `None` for a missing key, hence the `Option` fields. -/
structure ChunkMeta where
  file_path : Option String := none
  symbol : Option String := none
  language : Option String := none
  start_line : Option ℕ := none
  end_line : Option ℕ := none
deriving DecidableEq, Repr

instance : Inhabited ChunkMeta := ⟨{}⟩

/-- A project's vector collection: the four parallel sequences kept in the
JSON file / in-memory cache of `vector_store.py`. -/
structure Collection where
  ids : List String
  documents : List String
  embeddings : List (List ℚ)
  metadatas : List ChunkMeta
deriving DecidableEq, Repr

/-- The empty collection `_load_collection` creates when no file exists. -/
def emptyCollection : Collection := ⟨[], [], [], []⟩

/-- `_load_collection`: the persisted state is `none` when the collection
file is absent on disk (and not cached), in which case an empty collection
is returned. -/
def loadCollection (stored : Option Collection) : Collection :=
  stored.getD emptyCollection

/-- The invariant of `vector_store.py`: the four parallel sequences have
equal length. -/
def Collection.wf (c : Collection) : Prop :=
  c.ids.length = c.documents.length ∧
  c.ids.length = c.embeddings.length ∧
  c.ids.length = c.metadatas.length

instance (c : Collection) : Decidable c.wf := by
  unfold Collection.wf; infer_instance

/-- `add_chunks` from `vector_store.py`: extend each of the four sequences
by the given entries. -/
def addChunks (c : Collection) (ids documents : List String)
    (embeddings : List (List ℚ)) (metadatas : List ChunkMeta) : Collection :=
  { ids := c.ids ++ ids
    documents := c.documents ++ documents
    embeddings := c.embeddings ++ embeddings
    metadatas := c.metadatas ++ metadatas }

/-- Dot product of two vectors (`stored_norms @ query_norm` rows, and the
squared Euclidean norm via `dot v v`).  Like numpy on equal-length
vectors; extra entries of a longer vector are ignored. -/
def dot (u v : List ℚ) : ℚ := (List.zipWith (· * ·) u v).sum

/-- The `1e-10` guard added to the norms before dividing. -/
def normEps : ℚ := 1 / 10 ^ 10

/-- Cosine similarity of a stored vector and the query vector as
`query_chunks` computes it: both vectors are divided by `norm + 1e-10`
before the dot product, so
`sim = dot v q / ((nrm v + 1e-10) * (nrm q + 1e-10))`.
`nrm` models `np.linalg.norm`. -/
def cosineSim (nrm : List ℚ → ℚ) (v q : List ℚ) : ℚ :=
  dot v q / ((nrm v + normEps) * (nrm q + normEps))

/-- The order `np.argsort` uses on indices of the similarity list `s`:
ascending similarity, ties broken by index (stable sort). -/
def simLE (s : List ℚ) (i j : ℕ) : Prop :=
  s.getD i 0 < s.getD j 0 ∨ (s.getD i 0 = s.getD j 0 ∧ i ≤ j)

instance (s : List ℚ) : DecidableRel (simLE s) := fun i j => by
  unfold simLE; infer_instance

/-- `np.argsort(similarities)`: indices `0..n-1` sorted by ascending
similarity, stably. -/
def argsortAsc (s : List ℚ) : List ℕ :=
  List.insertionSort (simLE s) (List.range s.length)

/-- `np.argsort(similarities)[::-1][:k]` with `k = min(top_k, len(s))`:
the indices of the top-`k` similarities, best first. -/
def topIndices (s : List ℚ) (top_k : ℕ) : List ℕ :=
  (argsortAsc s).reverse.take (min top_k s.length)

/-- Result of `query_chunks`: each field wrapped in an outer singleton
list for ChromaDB compatibility. -/
structure QueryResult where
  ids : List (List String)
  documents : List (List String)
  metadatas : List (List ChunkMeta)
  distances : List (List ℚ)
deriving DecidableEq, Repr

/-- The empty result `query_chunks` returns for a collection with no
embeddings. -/
def emptyQueryResult : QueryResult := ⟨[[]], [[]], [[]], [[]]⟩

/-- `query_chunks` from `vector_store.py`: cosine-similarity ranking,
reported as `distance = 1 - similarity`, best (lowest distance) first. -/
def queryChunks (nrm : List ℚ → ℚ) (coll : Collection)
    (query_embedding : List ℚ) (top_k : ℕ) : QueryResult :=
  if coll.embeddings = [] then emptyQueryResult
  else
    let sims := coll.embeddings.map fun v => cosineSim nrm v query_embedding
    let top := topIndices sims top_k
    { ids := [top.map fun i => coll.ids.getD i ""]
      documents := [top.map fun i => coll.documents.getD i ""]
      metadatas := [top.map fun i => coll.metadatas.getD i default]
      distances := [top.map fun i => 1 - sims.getD i 0] }

/-- `DEFAULT_TOP_K` from `config.py`. -/
def DEFAULT_TOP_K : ℕ := 20

/-- `RetrievedChunk` dataclass from `retrieval.py`. -/
structure RetrievedChunk where
  file_path : String
  symbol : String
  code : String
  language : String
  distance : ℚ
  start_line : Option ℕ := none
  end_line : Option ℕ := none
deriving DecidableEq, Repr

instance : Inhabited RetrievedChunk :=
  ⟨{ file_path := "", symbol := "", code := "", language := "", distance := 0 }⟩

/-- `retrieve` from `retrieval.py`, with the query embedding
(`embed_query(question)`, an external model call) passed in as `queryEmb`
and the persisted collection as `coll`. -/
def retrieve (nrm : List ℚ → ℚ) (coll : Collection) (queryEmb : List ℚ)
    (top_k : Option ℕ) : List RetrievedChunk :=
  let k := top_k.getD DEFAULT_TOP_K
  let results := queryChunks nrm coll queryEmb k
  let ids0 := results.ids.getD 0 []
  if results.ids = [] ∨ ids0 = [] then []
  else
    (List.range ids0.length).map fun i =>
      let metas0 := results.metadatas.getD 0 []
      let docs0 := results.documents.getD 0 []
      let dists0 := results.distances.getD 0 []
      let meta := if metas0 = [] then default else metas0.getD i default
      let code := if docs0 = [] then "" else docs0.getD i ""
      let distance := if dists0 = [] then 1 else dists0.getD i 1
      { file_path := meta.file_path.getD "unknown"
        symbol := meta.symbol.getD "unknown"
        code := code
        language := meta.language.getD "unknown"
        distance := distance
        start_line := meta.start_line
        end_line := meta.end_line }

/-- `f"{x}"` for an optional int: Python prints `None` for `None`. -/
def optNatStr : Option ℕ → String
  | some n => toString n
  | none => "None"

/-- Python truthiness of an optional int (`None` and `0` are falsy). -/
def optTruthy : Option ℕ → Bool
  | some n => n ≠ 0
  | none => false

/-- One section of the context prompt: header line (1-based position,
location, language) followed by the raw chunk code. -/
def sectionFor (i : ℕ) (c : RetrievedChunk) : String :=
  let loc := c.file_path
  let loc := if optTruthy c.start_line then
      loc ++ " (lines " ++ optNatStr c.start_line ++ "-" ++
        optNatStr c.end_line ++ ")"
    else loc
  let loc := if c.symbol ≠ "" ∧
      c.symbol ∉ (["<file>", "<module>", "<imports>"] : List String) then
      loc ++ " → " ++ c.symbol
    else loc
  "--- [" ++ toString i ++ "] " ++ loc ++ " (" ++ c.language ++ ") ---\n" ++
    c.code

/-- `build_context_prompt` from `retrieval.py`. -/
def buildContextPrompt (chunks : List RetrievedChunk) : String :=
  if chunks = [] then "No relevant code found in the repository."
  else
    String.intercalate "\n\n"
      ((List.enumFrom 1 chunks).map fun p => sectionFor p.1 p.2)

/-- A default chunk (used with `List.getD`). -/
instance : Inhabited CodeChunk :=
  ⟨{ file_path := "", symbol := "", code := "", language := "",
     start_line := 0, end_line := 0 }⟩

/-- Euclidean norm of `[3, 4]` is `5`, of every other vector used in the
examples is `1`: an exact `np.linalg.norm` on the example vectors. -/
def exampleNorm : List ℚ → ℚ := fun v => if v = [3, 4] then 5 else 1

/-- Two identical stored vectors: a collection producing a similarity tie. -/
def tieCollection : Collection := ⟨["a", "b"], ["x", "y"], [[1], [1]], [{}, {}]⟩

/-- Example collection with two distinct stored vectors. -/
def exampleCollection : Collection :=
  ⟨["a", "b"], ["x", "y"], [[3, 4], [1, 0]], [{}, {}]⟩

/-- A 201-line file (201 newline characters). -/
def longContent : String := String.mk (List.replicate 201 '\n')

/-- The constant norm function `1` (exact for the unit vector `[1]`). -/
def constNorm : List ℚ → ℚ := fun _ => 1

/-- The single fallback chunk of the one-line file `"a"`. -/
def exampleFileChunk : CodeChunk where
  file_path := "f"
  symbol := "<file>"
  code := "a"
  language := "text"
  start_line := 1
  end_line := 1

/-- A concrete retrieved chunk with line info and a non-sentinel symbol. -/
def exampleRetrieved : RetrievedChunk where
  file_path := "a.py"
  symbol := "f"
  code := "x"
  language := "python"
  distance := 0
  start_line := some 1
  end_line := some 2

instance (s : List ℚ) : IsTotal ℕ (simLE s) := by
  constructor
  intro i j
  rcases lt_trichotomy (s.getD i 0) (s.getD j 0) with h | h | h
  · exact Or.inl (Or.inl h)
  · rcases Nat.le_total i j with hij | hij
    · exact Or.inl (Or.inr ⟨h, hij⟩)
    · exact Or.inr (Or.inr ⟨h.symm, hij⟩)
  · exact Or.inr (Or.inl h)

instance (s : List ℚ) : IsTrans ℕ (simLE s) := by
  constructor
  intro i j k hij hjk
  rcases hij with h1 | ⟨e1, l1⟩
  · rcases hjk with h2 | ⟨e2, l2⟩
    · exact Or.inl (h1.trans h2)
    · exact Or.inl (e2 ▸ h1)
  · rcases hjk with h2 | ⟨e2, l2⟩
    · exact Or.inl (e1 ▸ h2)
    · exact Or.inr ⟨e1.trans e2, l1.trans l2⟩

theorem argsortAsc_perm (s : List ℚ) :
    List.Perm (argsortAsc s) (List.range s.length) :=
  List.perm_insertionSort _ _

theorem argsortAsc_sorted (s : List ℚ) :
    List.Sorted (simLE s) (argsortAsc s) :=
  List.sorted_insertionSort _ _

theorem argsortAsc_nodup (s : List ℚ) : (argsortAsc s).Nodup :=
  ((argsortAsc_perm s).nodup_iff).2 (List.nodup_range _)

theorem argsortAsc_length (s : List ℚ) :
    (argsortAsc s).length = s.length := by
  simpa using (argsortAsc_perm s).length_eq

theorem mem_argsortAsc {s : List ℚ} {i : ℕ} :
    i ∈ argsortAsc s ↔ i < s.length := by
  rw [(argsortAsc_perm s).mem_iff, List.mem_range]

theorem topIndices_length (s : List ℚ) (k : ℕ) :
    (topIndices s k).length = min k s.length := by
  simp [topIndices, argsortAsc_length]

theorem topIndices_sublist (s : List ℚ) (k : ℕ) :
    (topIndices s k).Sublist (argsortAsc s).reverse :=
  List.take_sublist _ _

theorem mem_topIndices {s : List ℚ} {k i : ℕ} (h : i ∈ topIndices s k) :
    i < s.length := by
  have := (topIndices_sublist s k).mem h
  rw [List.mem_reverse, mem_argsortAsc] at this
  exact this

theorem topIndices_pairwise (s : List ℚ) (k : ℕ) :
    (topIndices s k).Pairwise (flip (simLE s)) := by
  exact (List.pairwise_reverse.2 (argsortAsc_sorted s)).sublist
    (topIndices_sublist s k)

theorem topIndices_nodup (s : List ℚ) (k : ℕ) : (topIndices s k).Nodup :=
  ((List.nodup_reverse).2 (argsortAsc_nodup s)).sublist (topIndices_sublist s k)

theorem dot_self_nonneg (v : List ℚ) : 0 ≤ dot v v := by
  induction v with
  | nil => simp [dot]
  | cons a t ih =>
    simp only [dot, List.zipWith_cons_cons, List.sum_cons]
    have := mul_self_nonneg a
    unfold dot at ih
    nlinarith

/-- One induction step of the Cauchy-Schwarz inequality. -/
theorem cs_step (a b d A B : ℚ) (hA : 0 ≤ A) (hB : 0 ≤ B)
    (hd : d ^ 2 ≤ A * B) :
    (a * b + d) ^ 2 ≤ (a * a + A) * (b * b + B) := by
  rcases eq_or_lt_of_le hB with hB0 | hBpos
  · have hd0 : d = 0 := by nlinarith
    subst hd0
    nlinarith [sq_nonneg a, sq_nonneg b, mul_nonneg hA (sq_nonneg b)]
  · nlinarith [sq_nonneg (a * B - b * d), mul_nonneg hA hB, sq_nonneg (a * b - d),
      mul_pos hBpos hBpos]

/-- Cauchy-Schwarz for the list dot product. -/
theorem dot_sq_le (u v : List ℚ) : (dot u v) ^ 2 ≤ dot u u * dot v v := by
  induction u generalizing v with
  | nil => simp [dot]
  | cons a t ih =>
    cases v with
    | nil => simp [dot]
    | cons b w =>
      simp only [dot, List.zipWith_cons_cons, List.sum_cons] at *
      exact cs_step a b _ _ _ (dot_self_nonneg t) (dot_self_nonneg w) (ih w)

theorem normEps_pos : 0 < normEps := by norm_num [normEps]

/-- With a correct norm, the computed cosine similarity lies strictly
inside `(-1, 1)` (the `1e-10` guard makes the bound strict). -/
theorem cosineSim_bounds (nrm : List ℚ → ℚ) (v q : List ℚ)
    (hv0 : 0 ≤ nrm v) (hv : nrm v * nrm v = dot v v)
    (hq0 : 0 ≤ nrm q) (hq : nrm q * nrm q = dot q q) :
    -1 < cosineSim nrm v q ∧ cosineSim nrm v q < 1 := by
  have heps := normEps_pos
  have hden : 0 < (nrm v + normEps) * (nrm q + normEps) := by
    apply mul_pos <;> linarith
  have habs : |dot v q| ≤ nrm v * nrm q := by
    have h1 : (dot v q) ^ 2 ≤ (nrm v * nrm q) ^ 2 := by
      have h0 := dot_sq_le v q
      rw [mul_pow, pow_two, pow_two, pow_two, hv, hq]
      rw [pow_two] at h0
      exact h0
    have h2 : 0 ≤ nrm v * nrm q := mul_nonneg hv0 hq0
    nlinarith [abs_nonneg (dot v q), sq_abs (dot v q)]
  have hlt : nrm v * nrm q < (nrm v + normEps) * (nrm q + normEps) := by
    nlinarith
  have habslt : |dot v q| < (nrm v + normEps) * (nrm q + normEps) :=
    lt_of_le_of_lt habs hlt
  rw [abs_lt] at habslt
  constructor
  · rw [cosineSim, neg_lt, ← neg_div]
    rw [div_lt_one hden]
    linarith
  · rw [cosineSim, div_lt_one hden]
    linarith

/-- C1: for every `query_chunks` call with a correct norm function, a
collection of size `N` and `top_k = k`, the result has exactly
`min k N` entries in each of the four parallel result lists, the distances
are non-decreasing, each distance is `1 - cosineSim` of some stored
vector, and every distance lies in `[0, 2]`. -/
theorem c1_query_spec (nrm : List ℚ → ℚ) (coll : Collection) (q : List ℚ)
    (k : ℕ) (hq : 0 ≤ nrm q ∧ nrm q * nrm q = dot q q)
    (hv : ∀ v ∈ coll.embeddings, 0 ≤ nrm v ∧ nrm v * nrm v = dot v v) :
    ∃ ids docs metas ds,
      queryChunks nrm coll q k =
        { ids := [ids], documents := [docs], metadatas := [metas],
          distances := [ds] } ∧
      ids.length = min k coll.embeddings.length ∧
      docs.length = min k coll.embeddings.length ∧
      metas.length = min k coll.embeddings.length ∧
      ds.length = min k coll.embeddings.length ∧
      List.Sorted (· ≤ ·) ds ∧
      (∀ d ∈ ds, (0 ≤ d ∧ d ≤ 2) ∧
        ∃ v ∈ coll.embeddings, d = 1 - cosineSim nrm v q) := by
  by_cases hemp : coll.embeddings = []
  · refine ⟨[], [], [], [], ?_, ?_, ?_, ?_, ?_, ?_, ?_⟩ <;>
      simp [queryChunks, hemp, emptyQueryResult, List.Sorted]
  · refine ⟨(topIndices (coll.embeddings.map fun v => cosineSim nrm v q) k).map
        (fun i => coll.ids.getD i ""),
      (topIndices (coll.embeddings.map fun v => cosineSim nrm v q) k).map
        (fun i => coll.documents.getD i ""),
      (topIndices (coll.embeddings.map fun v => cosineSim nrm v q) k).map
        (fun i => coll.metadatas.getD i default),
      (topIndices (coll.embeddings.map fun v => cosineSim nrm v q) k).map
        (fun i => 1 - (coll.embeddings.map fun v => cosineSim nrm v q).getD i 0),
      ?_, ?_, ?_, ?_, ?_, ?_, ?_⟩
    · simp only [queryChunks, if_neg hemp]
    · simp [topIndices_length]
    · simp [topIndices_length]
    · simp [topIndices_length]
    · simp [topIndices_length]
    · refine List.Pairwise.map _ ?_
        (topIndices_pairwise (coll.embeddings.map fun v => cosineSim nrm v q) k)
      intro a b hab
      rcases hab with hlt | ⟨heq, _⟩
      · linarith
      · rw [heq]
    · intro d hd
      rcases List.mem_map.1 hd with ⟨i, hi, rfl⟩
      have hilen : i < (coll.embeddings.map fun v => cosineSim nrm v q).length :=
        mem_topIndices hi
      have hilen' : i < coll.embeddings.length := by
        simpa using hilen
      have hget : (coll.embeddings.map fun v => cosineSim nrm v q).getD i 0 =
          cosineSim nrm (coll.embeddings[i]) q := by
        rw [List.getD_eq_getElem _ _ hilen, List.getElem_map]
      have hmem : coll.embeddings[i] ∈ coll.embeddings := List.getElem_mem _
      have hb := cosineSim_bounds nrm (coll.embeddings[i]) q
        (hv _ hmem).1 (hv _ hmem).2 hq.1 hq.2
      refine ⟨⟨?_, ?_⟩, coll.embeddings[i], hmem, by rw [hget]⟩
      · rw [hget]; linarith [hb.2]
      · rw [hget]; linarith [hb.1]

/-- Witness for C1 at a concrete two-vector collection and query. -/
theorem c1_witness :
    ((0 ≤ exampleNorm [1, 0] ∧
        exampleNorm [1, 0] * exampleNorm [1, 0] = dot [1, 0] [1, 0]) ∧
      (∀ v ∈ exampleCollection.embeddings,
        0 ≤ exampleNorm v ∧ exampleNorm v * exampleNorm v = dot v v)) ∧
    ∃ ids docs metas ds,
      queryChunks exampleNorm exampleCollection [1, 0] 5 =
        { ids := [ids], documents := [docs], metadatas := [metas],
          distances := [ds] } ∧
      ids.length = min 5 exampleCollection.embeddings.length ∧
      docs.length = min 5 exampleCollection.embeddings.length ∧
      metas.length = min 5 exampleCollection.embeddings.length ∧
      ds.length = min 5 exampleCollection.embeddings.length ∧
      List.Sorted (· ≤ ·) ds ∧
      (∀ d ∈ ds, (0 ≤ d ∧ d ≤ 2) ∧
        ∃ v ∈ exampleCollection.embeddings, d = 1 - cosineSim exampleNorm v [1, 0]) :=
  ⟨⟨⟨by norm_num [exampleNorm], by norm_num [exampleNorm, dot]⟩, by
      intro v hv
      fin_cases hv <;>
        exact ⟨by norm_num [exampleNorm], by norm_num [exampleNorm, dot]⟩⟩,
    c1_query_spec exampleNorm exampleCollection [1, 0] 5
      ⟨by norm_num [exampleNorm], by norm_num [exampleNorm, dot]⟩ (by
      intro v hv
      fin_cases hv <;>
        exact ⟨by norm_num [exampleNorm], by norm_num [exampleNorm, dot]⟩)⟩

/-- In a pairwise-ordered list, an element unrelated to another comes
after it. -/
theorem indexOf_lt_of_pairwise {α : Type} [DecidableEq α]
    {R : α → α → Prop} :
    ∀ {l : List α}, l.Pairwise R → ∀ {a b : α}, a ∈ l → b ∈ l → a ≠ b →
      ¬ R a b → l.indexOf b < l.indexOf a := by
  intro l
  induction l with
  | nil => intro _ a b ha; exact absurd ha (List.not_mem_nil a)
  | cons c t ih =>
    intro hp a b ha hb hab hnR
    rcases List.pairwise_cons.1 hp with ⟨hc, ht⟩
    rcases List.mem_cons.1 ha with rfl | hat
    · rcases List.mem_cons.1 hb with rfl | hbt
      · exact absurd rfl hab
      · exact absurd (hc b hbt) hnR
    · by_cases hbc : b = c
      · have hac : a ≠ c := fun h => hab (h.trans hbc.symm)
        rw [hbc, List.indexOf_cons_self, List.indexOf_cons_ne _ (Ne.symm hac)]
        exact Nat.succ_pos _
      · have hbt : b ∈ t := (List.mem_cons.1 hb).resolve_left hbc
        by_cases hac : a = c
        · subst hac
          exact absurd (hc b hbt) hnR
        · rw [List.indexOf_cons_ne _ (Ne.symm hac),
            List.indexOf_cons_ne _ (Ne.symm hbc)]
          exact Nat.succ_lt_succ (ih ht hat hbt hab hnR)

/-- `indexOf` within a `take`-prefix agrees with `indexOf` in the list. -/
theorem indexOf_take_eq {α : Type} [DecidableEq α] :
    ∀ {l : List α} {k : ℕ} {a : α}, a ∈ l.take k →
      (l.take k).indexOf a = l.indexOf a := by
  intro l
  induction l with
  | nil => intro k a ha; simp at ha
  | cons c t ih =>
    intro k a ha
    cases k with
    | zero => simp at ha
    | succ k =>
      rw [List.take_succ_cons] at ha ⊢
      by_cases hac : a = c
      · subst hac; rw [List.indexOf_cons_self, List.indexOf_cons_self]
      · have hat : a ∈ t.take k := (List.mem_cons.1 ha).resolve_left hac
        rw [List.indexOf_cons_ne _ (Ne.symm hac),
          List.indexOf_cons_ne _ (Ne.symm hac), ih hat]

/-- Membership in a `take`-prefix bounds the index. -/
theorem indexOf_lt_of_mem_take {α : Type} [DecidableEq α] :
    ∀ {l : List α} {k : ℕ} {a : α}, a ∈ l.take k → l.indexOf a < k := by
  intro l
  induction l with
  | nil => intro k a ha; simp at ha
  | cons c t ih =>
    intro k a ha
    cases k with
    | zero => simp at ha
    | succ k =>
      rw [List.take_succ_cons] at ha
      by_cases hac : a = c
      · subst hac; rw [List.indexOf_cons_self]; exact Nat.succ_pos _
      · have hat : a ∈ t.take k := (List.mem_cons.1 ha).resolve_left hac
        rw [List.indexOf_cons_ne _ (Ne.symm hac)]
        exact Nat.succ_lt_succ (ih hat)

/-- An element whose index is below `k` lies in the `take k` prefix. -/
theorem mem_take_of_indexOf_lt {α : Type} [DecidableEq α] :
    ∀ {l : List α} {k : ℕ} {a : α}, l.indexOf a < k → a ∈ l →
      a ∈ l.take k := by
  intro l
  induction l with
  | nil => intro k a _ ha; exact absurd ha (List.not_mem_nil a)
  | cons c t ih =>
    intro k a hk ha
    cases k with
    | zero => exact absurd hk (Nat.not_lt_zero _)
    | succ k =>
      rw [List.take_succ_cons]
      by_cases hac : a = c
      · subst hac; exact List.mem_cons_self _ _
      · have hat : a ∈ t := (List.mem_cons.1 ha).resolve_left hac
        rw [List.indexOf_cons_ne _ (Ne.symm hac)] at hk
        exact List.mem_cons_of_mem _ (ih (Nat.lt_of_succ_lt_succ hk) hat)

/-- C3 (amended): the ranking reverses a stable ascending argsort, so
entries with equal similarity appear in reverse insertion order: if
`i < j` have equal similarities and `i` made it into the top-`k` index
list, then `j` is there too and is ranked before `i`. -/
theorem c3_tie_order (s : List ℚ) (k i j : ℕ) (hij : i < j)
    (hjlen : j < s.length) (heq : s.getD i 0 = s.getD j 0)
    (hi : i ∈ topIndices s k) :
    j ∈ topIndices s k ∧
      (topIndices s k).indexOf j < (topIndices s k).indexOf i := by
  have hnR : ¬ (flip (simLE s)) i j := by
    intro h
    rcases h with hlt | ⟨_, hle⟩
    · rw [heq] at hlt; exact lt_irrefl _ hlt
    · omega
  have hpR : ((argsortAsc s).reverse).Pairwise (flip (simLE s)) :=
    List.pairwise_reverse.2 (argsortAsc_sorted s)
  have hiR : i ∈ (argsortAsc s).reverse :=
    List.mem_reverse.2 (mem_argsortAsc.2 (lt_trans hij hjlen))
  have hjR : j ∈ (argsortAsc s).reverse :=
    List.mem_reverse.2 (mem_argsortAsc.2 hjlen)
  have hidx : ((argsortAsc s).reverse).indexOf j <
      ((argsortAsc s).reverse).indexOf i :=
    indexOf_lt_of_pairwise hpR hiR hjR (Nat.ne_of_lt hij) hnR
  have hiTop : i ∈ ((argsortAsc s).reverse).take (min k s.length) := hi
  have h1 : ((argsortAsc s).reverse).indexOf i < min k s.length :=
    indexOf_lt_of_mem_take hiTop
  have hjTop : j ∈ ((argsortAsc s).reverse).take (min k s.length) :=
    mem_take_of_indexOf_lt (lt_trans hidx h1) hjR
  refine ⟨hjTop, ?_⟩
  show (((argsortAsc s).reverse).take (min k s.length)).indexOf j <
    (((argsortAsc s).reverse).take (min k s.length)).indexOf i
  rw [indexOf_take_eq hjTop, indexOf_take_eq hiTop]
  exact hidx

/-- Witness for the tie-order theorem on the concrete similarity list
`[5, 5]`. -/
theorem c3_witness :
    ((0 : ℕ) < 1 ∧ 1 < ([(5 : ℚ), 5]).length ∧
      ([(5 : ℚ), 5]).getD 0 0 = ([(5 : ℚ), 5]).getD 1 0 ∧
      0 ∈ topIndices [(5 : ℚ), 5] 2) ∧
    1 ∈ topIndices [(5 : ℚ), 5] 2 ∧
      (topIndices [(5 : ℚ), 5] 2).indexOf 1 <
        (topIndices [(5 : ℚ), 5] 2).indexOf 0 :=
  ⟨⟨by decide, by decide, by decide, by decide⟩,
    c3_tie_order [(5 : ℚ), 5] 2 0 1 (by decide) (by decide) (by decide)
      (by decide)⟩

/-- C3 counterexample: two identical stored vectors tie on similarity,
yet the second inserted entry `"b"` is returned before the first `"a"` —
ties come out in reverse insertion order, not insertion order. -/
theorem c3_counterexample :
    (queryChunks constNorm tieCollection [1] 2).ids = [["b", "a"]] ∧
    (queryChunks constNorm tieCollection [1] 2).distances =
      [[1 - cosineSim constNorm [1] [1], 1 - cosineSim constNorm [1] [1]]] := by
  have hrange : List.range 2 = [0, 1] := rfl
  constructor <;>
    simp [queryChunks, tieCollection, topIndices, argsortAsc, hrange, simLE]

/-- C7: querying a missing collection, or any collection without
embeddings, yields the empty result (all four sequences empty), and
`retrieve` on such a project returns the empty list.  Both functions are
total, so no exception is possible. -/
theorem c7_empty_query (nrm : List ℚ → ℚ) (q : List ℚ) (k : ℕ)
    (tk : Option ℕ) :
    queryChunks nrm (loadCollection none) q k = emptyQueryResult ∧
    ∀ coll : Collection, coll.embeddings = [] →
      queryChunks nrm coll q k = emptyQueryResult ∧
      retrieve nrm coll q tk = [] := by
  constructor
  · simp [queryChunks, loadCollection, emptyCollection]
  · intro coll hc
    constructor
    · simp [queryChunks, hc]
    · simp [retrieve, queryChunks, hc, emptyQueryResult]

/-- Witness for C7 at a concrete embedding-less collection. -/
theorem c7_witness :
    (⟨["a"], ["x"], [], []⟩ : Collection).embeddings = [] ∧
    (queryChunks constNorm (loadCollection none) [1] 3 = emptyQueryResult ∧
      (queryChunks constNorm (⟨["a"], ["x"], [], []⟩ : Collection) [1] 3 =
          emptyQueryResult ∧
        retrieve constNorm (⟨["a"], ["x"], [], []⟩ : Collection) [1] none =
          [])) :=
  ⟨rfl, (c7_empty_query constNorm [1] 3 none).1,
    (c7_empty_query constNorm [1] 3 none).2 ⟨["a"], ["x"], [], []⟩ rfl⟩

/-- C9: the equal-length invariant of the four parallel sequences holds
for the empty collection, for any loaded collection whose persisted state
satisfied it, and is preserved by `add_chunks`, which grows each sequence
by the number of added entries and leaves the prior entries unchanged. -/
theorem c9_invariant :
    emptyCollection.wf ∧
    (∀ stored : Option Collection, (∀ c, stored = some c → c.wf) →
      (loadCollection stored).wf) ∧
    ∀ (c : Collection) (ids docs : List String) (embs : List (List ℚ))
      (metas : List ChunkMeta),
      c.wf → ids.length = docs.length → ids.length = embs.length →
      ids.length = metas.length →
      ((addChunks c ids docs embs metas).wf ∧
        (addChunks c ids docs embs metas).ids.length =
          c.ids.length + ids.length ∧
        (addChunks c ids docs embs metas).documents.length =
          c.documents.length + docs.length ∧
        (addChunks c ids docs embs metas).embeddings.length =
          c.embeddings.length + embs.length ∧
        (addChunks c ids docs embs metas).metadatas.length =
          c.metadatas.length + metas.length ∧
        (addChunks c ids docs embs metas).ids.take c.ids.length = c.ids ∧
        (addChunks c ids docs embs metas).documents.take
          c.documents.length = c.documents ∧
        (addChunks c ids docs embs metas).embeddings.take
          c.embeddings.length = c.embeddings ∧
        (addChunks c ids docs embs metas).metadatas.take
          c.metadatas.length = c.metadatas) := by
  refine ⟨⟨rfl, rfl, rfl⟩, ?_, ?_⟩
  · intro stored h
    cases stored with
    | none => exact ⟨rfl, rfl, rfl⟩
    | some c => exact h c rfl
  · intro c ids docs embs metas hwf h1 h2 h3
    rcases hwf with ⟨w1, w2, w3⟩
    refine ⟨⟨?_, ?_, ?_⟩, ?_, ?_, ?_, ?_, ?_, ?_, ?_, ?_⟩ <;>
      simp [addChunks, List.take_left', w1, w2, w3, h1, h2, h3]
    all_goals omega

/-- Witness for C9 on a concrete collection and added entries. -/
theorem c9_witness :
    ((⟨["a"], ["x"], [[1]], [{}]⟩ : Collection).wf ∧
      ["b"].length = ["y"].length ∧ ["b"].length = [[(2 : ℚ)]].length ∧
      ["b"].length = [({} : ChunkMeta)].length) ∧
    ((addChunks ⟨["a"], ["x"], [[1]], [{}]⟩ ["b"] ["y"] [[2]] [{}]).wf ∧
      (addChunks ⟨["a"], ["x"], [[1]], [{}]⟩ ["b"] ["y"] [[2]] [{}]).ids.length =
        (⟨["a"], ["x"], [[1]], [{}]⟩ : Collection).ids.length + ["b"].length ∧
      (addChunks ⟨["a"], ["x"], [[1]], [{}]⟩ ["b"] ["y"] [[2]] [{}]).documents.length =
        (⟨["a"], ["x"], [[1]], [{}]⟩ : Collection).documents.length + ["y"].length ∧
      (addChunks ⟨["a"], ["x"], [[1]], [{}]⟩ ["b"] ["y"] [[2]] [{}]).embeddings.length =
        (⟨["a"], ["x"], [[1]], [{}]⟩ : Collection).embeddings.length + [[(2 : ℚ)]].length ∧
      (addChunks ⟨["a"], ["x"], [[1]], [{}]⟩ ["b"] ["y"] [[2]] [{}]).metadatas.length =
        (⟨["a"], ["x"], [[1]], [{}]⟩ : Collection).metadatas.length + [({} : ChunkMeta)].length ∧
      (addChunks ⟨["a"], ["x"], [[1]], [{}]⟩ ["b"] ["y"] [[2]] [{}]).ids.take
        (⟨["a"], ["x"], [[1]], [{}]⟩ : Collection).ids.length =
        (⟨["a"], ["x"], [[1]], [{}]⟩ : Collection).ids ∧
      (addChunks ⟨["a"], ["x"], [[1]], [{}]⟩ ["b"] ["y"] [[2]] [{}]).documents.take
        (⟨["a"], ["x"], [[1]], [{}]⟩ : Collection).documents.length =
        (⟨["a"], ["x"], [[1]], [{}]⟩ : Collection).documents ∧
      (addChunks ⟨["a"], ["x"], [[1]], [{}]⟩ ["b"] ["y"] [[2]] [{}]).embeddings.take
        (⟨["a"], ["x"], [[1]], [{}]⟩ : Collection).embeddings.length =
        (⟨["a"], ["x"], [[1]], [{}]⟩ : Collection).embeddings ∧
      (addChunks ⟨["a"], ["x"], [[1]], [{}]⟩ ["b"] ["y"] [[2]] [{}]).metadatas.take
        (⟨["a"], ["x"], [[1]], [{}]⟩ : Collection).metadatas.length =
        (⟨["a"], ["x"], [[1]], [{}]⟩ : Collection).metadatas) :=
  ⟨⟨⟨rfl, rfl, rfl⟩, rfl, rfl, rfl⟩,
    c9_invariant.2.2 ⟨["a"], ["x"], [[1]], [{}]⟩ ["b"] ["y"] [[2]] [{}]
      ⟨rfl, rfl, rfl⟩ rfl rfl rfl⟩

/-- C8: `build_context_prompt` of the empty list is the fixed non-empty
placeholder; for a non-empty list it is the blank-line-separated join of
one section per chunk (in input order, 1-based positions), where each
section is a header line — file path, then the line range exactly when the
start line is a present non-zero value, then the symbol exactly when it is
non-empty and not a sentinel, then the language — followed by the chunk's
code verbatim. -/
theorem c8_context_prompt :
    (buildContextPrompt [] = "No relevant code found in the repository." ∧
      "No relevant code found in the repository." ≠ "") ∧
    (∀ cs : List RetrievedChunk, cs ≠ [] →
      buildContextPrompt cs =
        String.intercalate "\n\n"
          ((List.enumFrom 1 cs).map fun p => sectionFor p.1 p.2) ∧
      ((List.enumFrom 1 cs).map fun p => sectionFor p.1 p.2).length =
        cs.length) ∧
    ∀ (i : ℕ) (c : RetrievedChunk),
      ∃ r s, sectionFor i c =
        "--- [" ++ toString i ++ "] " ++ c.file_path ++ r ++ s ++ " (" ++
          c.language ++ ") ---\n" ++ c.code ∧
      (optTruthy c.start_line = false → r = "") ∧
      (optTruthy c.start_line = true →
        r = " (lines " ++ optNatStr c.start_line ++ "-" ++
          optNatStr c.end_line ++ ")") ∧
      ((c.symbol = "" ∨
        c.symbol ∈ (["<file>", "<module>", "<imports>"] : List String)) →
        s = "") ∧
      (c.symbol ≠ "" →
        c.symbol ∉ (["<file>", "<module>", "<imports>"] : List String) →
        s = " → " ++ c.symbol) := by
  refine ⟨⟨rfl, by decide⟩, ?_, ?_⟩
  · intro cs hcs
    constructor
    · rw [buildContextPrompt, if_neg hcs]
    · simp
  · intro i c
    have hs : ∀ h : c.symbol = "" ∨
        c.symbol ∈ (["<file>", "<module>", "<imports>"] : List String),
        ¬ (c.symbol ≠ "" ∧
          c.symbol ∉ (["<file>", "<module>", "<imports>"] : List String)) :=
      fun h hc => h.elim (fun he => hc.1 he) (fun hm => hc.2 hm)
    by_cases h2 : c.symbol ≠ "" ∧
        c.symbol ∉ (["<file>", "<module>", "<imports>"] : List String)
    · cases hB : optTruthy c.start_line
      · refine ⟨"", " → " ++ c.symbol, ?_, fun _ => rfl,
          fun hcon => Bool.noConfusion hcon,
          fun h => absurd h2 (hs h), fun _ _ => rfl⟩
        simp only [sectionFor, hB, Bool.false_eq_true, if_false, if_pos h2,
          String.append_assoc, String.append_empty]
      · refine ⟨" (lines " ++ optNatStr c.start_line ++ "-" ++
            optNatStr c.end_line ++ ")", " → " ++ c.symbol, ?_,
          fun hcon => Bool.noConfusion hcon,
          fun _ => rfl, fun h => absurd h2 (hs h), fun _ _ => rfl⟩
        simp only [sectionFor, hB, if_true, if_pos h2, String.append_assoc,
          String.append_empty]
    · cases hB : optTruthy c.start_line
      · refine ⟨"", "", ?_, fun _ => rfl,
          fun hcon => Bool.noConfusion hcon,
          fun _ => rfl, fun hne hnm => absurd ⟨hne, hnm⟩ h2⟩
        simp only [sectionFor, hB, Bool.false_eq_true, if_false, if_neg h2,
          String.append_assoc, String.append_empty]
      · refine ⟨" (lines " ++ optNatStr c.start_line ++ "-" ++
            optNatStr c.end_line ++ ")", "", ?_,
          fun hcon => Bool.noConfusion hcon,
          fun _ => rfl, fun _ => rfl, fun hne hnm => absurd ⟨hne, hnm⟩ h2⟩
        simp only [sectionFor, hB, if_true, if_neg h2, String.append_assoc,
          String.append_empty]

/-- Witness for C8 at a one-chunk list with present line info and a
non-sentinel symbol. -/
theorem c8_witness :
    (([exampleRetrieved] : List RetrievedChunk) ≠ [] ∧
      buildContextPrompt [exampleRetrieved] =
        "--- [1] a.py (lines 1-2) → f (python) ---\nx") ∧
    ∃ r s, sectionFor 1 exampleRetrieved =
      "--- [" ++ toString 1 ++ "] " ++ exampleRetrieved.file_path ++ r ++ s ++
        " (" ++ exampleRetrieved.language ++ ") ---\n" ++
        exampleRetrieved.code ∧
      (optTruthy exampleRetrieved.start_line = false → r = "") ∧
      (optTruthy exampleRetrieved.start_line = true →
        r = " (lines " ++ optNatStr exampleRetrieved.start_line ++ "-" ++
          optNatStr exampleRetrieved.end_line ++ ")") ∧
      ((exampleRetrieved.symbol = "" ∨ exampleRetrieved.symbol ∈
          (["<file>", "<module>", "<imports>"] : List String)) → s = "") ∧
      (exampleRetrieved.symbol ≠ "" → exampleRetrieved.symbol ∉
          (["<file>", "<module>", "<imports>"] : List String) →
        s = " → " ++ exampleRetrieved.symbol) :=
  ⟨⟨by decide, by decide⟩, c8_context_prompt.2.2 1 exampleRetrieved⟩

/-- Closed form of the fixed-window loop: starting at 0-based line `i`
with block counter `idx`, the `j`-th emitted chunk covers 1-based lines
`i + 130*j + 1 .. min (i + 130*j + 150) n`, and a `j`-th chunk exists
exactly when `i + 130*j < n`. -/
theorem windowChunks_props (fp lang : String) (lines : List String) :
    ∀ (m i idx : ℕ), lines.length ≤ i + m →
      (∀ j, j < (windowChunks fp lang lines i idx).length ↔
        i + 130 * j < lines.length) ∧
      (∀ j (h : j < (windowChunks fp lang lines i idx).length),
        (windowChunks fp lang lines i idx).get ⟨j, h⟩ =
          { file_path := fp,
            symbol := "<block_" ++ toString (idx + j) ++ ">",
            code := sliceJoin lines (i + 130 * j + 1)
              (min (i + 130 * j + 150) lines.length),
            language := lang,
            start_line := i + 130 * j + 1,
            end_line := min (i + 130 * j + 150) lines.length }) := by
  intro m
  induction m with
  | zero =>
    intro i idx hm
    have hni : ¬ i < lines.length := by omega
    rw [windowChunks, dif_neg hni]
    refine ⟨fun j => ?_, fun j h => absurd h (by simp)⟩
    simp only [List.length_nil]
    omega
  | succ m ih =>
    intro i idx hm
    by_cases hi : i < lines.length
    · have hrec := ih (i + 130) (idx + 1) (by omega)
      rw [windowChunks, dif_pos hi]
      constructor
      · intro j
        cases j with
        | zero =>
          simp only [List.length_cons]
          omega
        | succ j =>
          have hlen := hrec.1 j
          simp only [List.length_cons]
          constructor
          · intro h
            have : j < (windowChunks fp lang lines (i + 130) (idx + 1)).length := by
              omega
            have := hlen.1 this
            omega
          · intro h
            have : i + 130 + 130 * j < lines.length := by ring_nf; ring_nf at h; omega
            have := hlen.2 this
            omega
      · intro j h
        cases j with
        | zero =>
          simp only [List.get_cons_zero]
          simp only [FALLBACK_CHUNK_LINES]
          congr 1
        | succ j =>
          have hj : j < (windowChunks fp lang lines (i + 130) (idx + 1)).length := by
            simp only [List.length_cons] at h
            omega
          rw [List.get_cons_succ]
          rw [hrec.2 j hj]
          have e1 : idx + 1 + j = idx + (j + 1) := by omega
          have e2 : i + 130 + 130 * j = i + 130 * (j + 1) := by ring
          rw [e1, e2]
    · have hni : lines.length ≤ i := by omega
      rw [windowChunks, dif_neg hi]
      refine ⟨fun j => ?_, fun j h => absurd h (by simp)⟩
      simp only [List.length_nil]
      omega

/-- C5: for files longer than `MAX_CHUNK_LINES`, consecutive fixed-window
chunks overlap by exactly 20 lines — except possibly the pair involving
the final chunk — and the chunks' line ranges cover exactly lines
`1 .. n`. -/
theorem c5_window_overlap (fp content lang : String)
    (h : MAX_CHUNK_LINES < (splitlines content).length) :
    (∀ j, j + 2 < (chunkByLines fp content lang).length →
      ((chunkByLines fp content lang).getD j default).end_line + 1 =
        ((chunkByLines fp content lang).getD (j + 1) default).start_line +
          20) ∧
    (∀ m, (1 ≤ m ∧ m ≤ (splitlines content).length) ↔
      ∃ c ∈ chunkByLines fp content lang,
        c.start_line ≤ m ∧ m ≤ c.end_line) := by
  have hMAX : MAX_CHUNK_LINES = 200 := rfl
  have hne : splitlines content ≠ [] := by
    intro he
    rw [he] at h
    simp [MAX_CHUNK_LINES] at h
  have hcb : chunkByLines fp content lang =
      windowChunks fp lang (splitlines content) 0 0 := by
    simp only [chunkByLines]
    rw [if_neg hne, if_neg (by omega)]
  have hp := windowChunks_props fp lang (splitlines content)
    (splitlines content).length 0 0 (by omega)
  rw [hcb]
  constructor
  · intro j hj
    have hj0 : j < (windowChunks fp lang (splitlines content) 0 0).length := by
      omega
    have hj1 : j + 1 <
        (windowChunks fp lang (splitlines content) 0 0).length := by omega
    have hex : 0 + 130 * (j + 2) < (splitlines content).length :=
      (hp.1 (j + 2)).1 hj
    have eEnd : ((windowChunks fp lang (splitlines content) 0 0).getD j
        default).end_line =
        min (0 + 130 * j + 150) (splitlines content).length := by
      rw [List.getD_eq_get _ _ hj0, hp.2 j hj0]
    have eStart : ((windowChunks fp lang (splitlines content) 0 0).getD
        (j + 1) default).start_line = 0 + 130 * (j + 1) + 1 := by
      rw [List.getD_eq_get _ _ hj1, hp.2 (j + 1) hj1]
    omega
  · intro m
    constructor
    · rintro ⟨hm1, hm2⟩
      have hdm := Nat.div_add_mod (m - 1) 130
      have hmod : (m - 1) % 130 < 130 := Nat.mod_lt _ (by omega)
      have hjlt : 0 + 130 * ((m - 1) / 130) < (splitlines content).length := by
        omega
      have hjlen : (m - 1) / 130 <
          (windowChunks fp lang (splitlines content) 0 0).length :=
        (hp.1 _).2 hjlt
      refine ⟨(windowChunks fp lang (splitlines content) 0 0).get
        ⟨(m - 1) / 130, hjlen⟩, List.get_mem _ _ _, ?_⟩
      rw [hp.2 _ hjlen]
      constructor
      · show 0 + 130 * ((m - 1) / 130) + 1 ≤ m
        omega
      · show m ≤ min (0 + 130 * ((m - 1) / 130) + 150)
          (splitlines content).length
        omega
    · rintro ⟨c, hc, hs1, hs2⟩
      rcases List.mem_iff_get.1 hc with ⟨⟨j, hjl⟩, hg⟩
      have h1 : c.start_line = 0 + 130 * j + 1 := by rw [← hg, hp.2 j hjl]
      have h2 : c.end_line =
          min (0 + 130 * j + 150) (splitlines content).length := by
        rw [← hg, hp.2 j hjl]
      omega

set_option maxRecDepth 4000 in
/-- Witness for C5 on a concrete 201-line file. -/
theorem c5_witness :
    MAX_CHUNK_LINES < (splitlines longContent).length ∧
    ((∀ j, j + 2 < (chunkByLines "f" longContent "text").length →
      ((chunkByLines "f" longContent "text").getD j default).end_line + 1 =
        ((chunkByLines "f" longContent "text").getD (j + 1)
          default).start_line + 20) ∧
    (∀ m, (1 ≤ m ∧ m ≤ (splitlines longContent).length) ↔
      ∃ c ∈ chunkByLines "f" longContent "text",
        c.start_line ≤ m ∧ m ≤ c.end_line)) :=
  ⟨by decide, c5_window_overlap "f" longContent "text" (by decide)⟩

/-- One unfolding step of the fuelled window loop. -/
theorem windowLoopFuel_succ (W : ℤ) (fp lang : String)
    (lines : List String) (fuel : ℕ) (i : ℤ) (idx : ℕ) :
    windowLoopFuel W fp lang lines (fuel + 1) i idx =
      if i < (lines.length : ℤ) then
        match windowLoopFuel W fp lang lines fuel (i + (W - 20)) (idx + 1) with
        | none => none
        | some cs =>
          some ({ file_path := fp
                  symbol := "<block_" ++ toString idx ++ ">"
                  code := String.intercalate "\n"
                    (pySliceZ lines i (min (i + W) (lines.length : ℤ)))
                  language := lang
                  start_line := (i + 1).toNat
                  end_line := (min (i + W) (lines.length : ℤ)).toNat } :: cs)
      else some [] := rfl

/-- With `FALLBACK_CHUNK_LINES ≤ 20` the loop start never passes the end
of the file, so the loop never terminates (no fuel suffices). -/
theorem windowLoopFuel_stuck (W : ℤ) (fp lang : String)
    (lines : List String) (hW : W ≤ 20) :
    ∀ (fuel : ℕ) (i : ℤ) (idx : ℕ), i < (lines.length : ℤ) →
      windowLoopFuel W fp lang lines fuel i idx = none := by
  intro fuel
  induction fuel with
  | zero => intro i idx _; rfl
  | succ f ih =>
    intro i idx hi
    rw [windowLoopFuel_succ, if_pos hi]
    rw [ih (i + (W - 20)) (idx + 1) (by omega)]

/-- With `21 ≤ FALLBACK_CHUNK_LINES` the loop start grows by at least one
per iteration, so `f` iterations suffice once `n ≤ i + f * (W - 20)`. -/
theorem windowLoopFuel_done (W : ℤ) (fp lang : String)
    (lines : List String) (hW : 21 ≤ W) :
    ∀ (f : ℕ) (i : ℤ) (idx : ℕ),
      (lines.length : ℤ) ≤ i + f * (W - 20) →
      (windowLoopFuel W fp lang lines (f + 1) i idx).isSome := by
  intro f
  induction f with
  | zero =>
    intro i idx h0
    have hni : ¬ i < (lines.length : ℤ) := by
      simp only [Nat.cast_zero, zero_mul, add_zero] at h0
      omega
    simp [windowLoopFuel, if_neg hni]
  | succ f ih =>
    intro i idx h0
    by_cases hi : i < (lines.length : ℤ)
    · have hnext : (lines.length : ℤ) ≤ (i + (W - 20)) + f * (W - 20) := by
        have he : ((f : ℤ) + 1) * (W - 20) = f * (W - 20) + (W - 20) := by
          ring
        push_cast at h0
        linarith
      have hrec := ih (i + (W - 20)) (idx + 1) hnext
      rw [windowLoopFuel_succ, if_pos hi]
      obtain ⟨cs, hcs⟩ := Option.isSome_iff_exists.1 hrec
      rw [hcs]
      rfl
    · rw [windowLoopFuel_succ, if_neg hi]
      rfl

/-- C10: on a file longer than `MAX_CHUNK_LINES` the `_chunk_by_lines`
loop (window `W`, hard-coded overlap 20) terminates for some fuel exactly
when the configured window exceeds the overlap, i.e. `W ≥ 21`; for
`W ≤ 20` no amount of fuel produces a result. -/
theorem c10_termination (W : ℤ) (fp content lang : String)
    (h : MAX_CHUNK_LINES < (splitlines content).length) :
    (∃ fuel, (chunkByLinesGen W fuel fp content lang).isSome) ↔ 21 ≤ W := by
  have hne : splitlines content ≠ [] := by
    intro he
    rw [he] at h
    simp [MAX_CHUNK_LINES] at h
  have hgen : ∀ fuel, chunkByLinesGen W fuel fp content lang =
      windowLoopFuel W fp lang (splitlines content) fuel 0 0 := by
    intro fuel
    simp only [chunkByLinesGen]
    rw [if_neg hne, if_neg (by omega)]
  constructor
  · rintro ⟨fuel, hs⟩
    by_contra hlt
    have hW : W ≤ 20 := by omega
    rw [hgen] at hs
    have hn0 : (0 : ℤ) < ((splitlines content).length : ℤ) := by
      have : MAX_CHUNK_LINES = 200 := rfl
      omega
    rw [windowLoopFuel_stuck W fp lang _ hW fuel 0 0 hn0] at hs
    simp at hs
  · intro hW
    refine ⟨(splitlines content).length + 1, ?_⟩
    rw [hgen]
    refine windowLoopFuel_done W fp lang (splitlines content) hW
      (splitlines content).length 0 0 ?_
    have h1 : (1 : ℤ) ≤ W - 20 := by omega
    have hn : (0 : ℤ) ≤ ((splitlines content).length : ℤ) := by positivity
    rw [zero_add]
    exact le_mul_of_one_le_right hn h1

set_option maxRecDepth 4000 in
/-- Witness for C10 at `W = 21` on a concrete 201-line file. -/
theorem c10_witness :
    MAX_CHUNK_LINES < (splitlines longContent).length ∧
    ((∃ fuel, (chunkByLinesGen 21 fuel "f" longContent "text").isSome) ↔
      21 ≤ (21 : ℤ)) :=
  ⟨by decide, c10_termination 21 "f" longContent "text" (by decide)⟩

/-- Every module-preamble chunk starts at line 1 and carries the stripped
join of its line range. -/
theorem pyPreamble_code (fp : String) (lines : List String)
    (nodes : List PyTop) :
    ∀ c ∈ pyPreamble fp lines nodes,
      c.code = pyStrip (sliceJoin lines c.start_line c.end_line) := by
  intro c hc
  cases hh : nodes.head? with
  | none =>
    simp only [pyPreamble, hh] at hc
    exact absurd hc (List.not_mem_nil c)
  | some n =>
    simp only [pyPreamble, hh] at hc
    by_cases h1 : 1 < n.lineno
    · rw [if_pos h1] at hc
      by_cases h2 : pyStrip (sliceJoin lines 1 (n.lineno - 1)) ≠ "" ∧
          3 ≤ (splitlines (pyStrip (sliceJoin lines 1 (n.lineno - 1)))).length
      · rw [if_pos h2] at hc
        rw [List.mem_singleton] at hc
        subst hc
        rfl
      · rw [if_neg h2] at hc
        simp at hc
    · rw [if_neg h1] at hc
      simp at hc

/-- Every chunk emitted for a single top-level node carries the exact
join of its line range. -/
theorem chunkNode_code (fp : String) (lines : List String) (t : PyTop) :
    ∀ c ∈ chunkNode fp lines t,
      c.code = sliceJoin lines c.start_line c.end_line := by
  intro c hc
  cases t with
  | funcDef d =>
    simp only [chunkNode] at hc
    rw [List.mem_singleton] at hc
    subst hc
    rfl
  | classDef name start endln methods =>
    simp only [chunkNode] at hc
    by_cases hsmall : pyOr endln start - start ≤ MAX_CHUNK_LINES
    · rw [if_pos hsmall] at hc
      rw [List.mem_singleton] at hc
      subst hc
      rfl
    · rw [if_neg hsmall] at hc
      rcases List.mem_append.1 hc with hhd | hmap
      · by_cases hh : pyStrip (sliceJoin lines start
            (match methods.head? with
              | some m => m.lineno - 1
              | none => start)) ≠ ""
        · rw [if_pos hh] at hhd
          rw [List.mem_singleton] at hhd
          subst hhd
          rfl
        · rw [if_neg hh] at hhd
          simp at hhd
      · rcases List.mem_map.1 hmap with ⟨m, _, hme⟩
        subst hme
        rfl

/-- Every chunk of `_chunk_python` carries the join of its line range,
possibly stripped (the module preamble). -/
theorem pythonChunks_code (fp content : String) (tree : Option (List PyTop)) :
    ∀ c ∈ pythonChunks fp content tree,
      c.code = sliceJoin (splitlines content) c.start_line c.end_line ∨
      c.code = pyStrip (sliceJoin (splitlines content) c.start_line
        c.end_line) := by
  intro c hc
  cases tree with
  | none => simp [pythonChunks] at hc
  | some nodes =>
    simp only [pythonChunks] at hc
    rcases List.mem_append.1 hc with hpre | hnode
    · exact Or.inr (pyPreamble_code fp (splitlines content) nodes c hpre)
    · rcases List.mem_flatMap.1 hnode with ⟨t, _, hct⟩
      exact Or.inl (chunkNode_code fp (splitlines content) t c hct)

/-- Every chunk of the JS body loop carries the right-stripped join of
its line range. -/
theorem jsBody_code (fp lang : String) (lines : List String) :
    ∀ (bs : List (ℕ × String)), ∀ c ∈ jsBody fp lang lines bs,
      c.code = pyRstrip (sliceJoin lines c.start_line c.end_line) := by
  intro bs
  induction bs with
  | nil => intro c hc; simp [jsBody] at hc
  | cons b rest ih =>
    intro c hc
    obtain ⟨s, sym⟩ := b
    simp only [jsBody] at hc
    rcases List.mem_append.1 hc with hhd | htl
    · by_cases hne : pyStrip (pyRstrip (sliceJoin lines (s + 1)
          ((match rest.head? with
            | some b => b.1 - 1
            | none => lines.length - 1) + 1))) ≠ ""
      · rw [if_pos hne] at hhd
        rw [List.mem_singleton] at hhd
        subst hhd
        rfl
      · rw [if_neg hne] at hhd
        simp at hhd
    · exact ih c htl

/-- Every chunk of `_chunk_javascript` carries the join of its line range
stripped (imports preamble) or right-stripped (body chunks). -/
theorem jsChunks_code (fp content lang : String)
    (bounds : List (ℕ × String)) :
    ∀ c ∈ jsChunks fp content lang bounds,
      c.code = pyStrip (sliceJoin (splitlines content) c.start_line
        c.end_line) ∨
      c.code = pyRstrip (sliceJoin (splitlines content) c.start_line
        c.end_line) := by
  intro c hc
  simp only [jsChunks] at hc
  by_cases hemp : splitlines content = []
  · rw [if_pos hemp] at hc
    simp at hc
  · rw [if_neg hemp] at hc
    cases hh : bounds.head? with
    | none => rw [hh] at hc; simp at hc
    | some b0 =>
      rw [hh] at hc
      rcases List.mem_append.1 hc with hpre | hbody
      · by_cases h0 : 0 < b0.1
        · rw [if_pos h0] at hpre
          by_cases h2 : pyStrip (sliceJoin (splitlines content) 1 b0.1) ≠ "" ∧
              2 ≤ (splitlines (pyStrip (sliceJoin (splitlines content) 1
                b0.1))).length
          · rw [if_pos h2] at hpre
            rw [List.mem_singleton] at hpre
            subst hpre
            exact Or.inl rfl
          · rw [if_neg h2] at hpre
            simp at hpre
        · rw [if_neg h0] at hpre
          simp at hpre
      · exact Or.inr (jsBody_code fp lang (splitlines content) bounds c hbody)

/-- Every fallback chunk is either a window chunk with the exact join of
its line range, or the whole-file chunk carrying the raw content. -/
theorem chunkByLines_code (fp content lang : String) :
    ∀ c ∈ chunkByLines fp content lang,
      c.code = sliceJoin (splitlines content) c.start_line c.end_line ∨
      (c.symbol = "<file>" ∧ c.code = content) := by
  intro c hc
  simp only [chunkByLines] at hc
  by_cases hemp : splitlines content = []
  · rw [if_pos hemp] at hc
    simp at hc
  · rw [if_neg hemp] at hc
    by_cases hsmall : (splitlines content).length ≤ MAX_CHUNK_LINES
    · rw [if_pos hsmall] at hc
      rw [List.mem_singleton] at hc
      subst hc
      exact Or.inr ⟨rfl, rfl⟩
    · rw [if_neg hsmall] at hc
      have hp := windowChunks_props fp lang (splitlines content)
        (splitlines content).length 0 0 (by omega)
      rcases List.mem_iff_get.1 hc with ⟨⟨j, hjl⟩, hg⟩
      rw [hp.2 j hjl] at hg
      subst hg
      exact Or.inl rfl

/-- C2 (amended): every chunk's `code` is the join of its recorded line
range (`"\n".join(lines[start-1:end])`), up to whitespace trimming — the
Python module preamble and JS chunks are stripped / right-stripped — with
one exception: the whole-file fallback chunk stores the raw content, which
differs from the join when the file ends in a newline or uses `\r`
line endings. -/
theorem c2_line_range (tree : Option (List PyTop))
    (bounds : List (ℕ × String)) (fp content lang : String) :
    ∀ c ∈ chunkFile tree bounds fp content lang,
      c.code = sliceJoin (splitlines content) c.start_line c.end_line ∨
      c.code = pyStrip (sliceJoin (splitlines content) c.start_line
        c.end_line) ∨
      c.code = pyRstrip (sliceJoin (splitlines content) c.start_line
        c.end_line) ∨
      (c.symbol = "<file>" ∧ c.code = content) := by
  intro c hc
  simp only [chunkFile] at hc
  by_cases h1 : lang = "python" ∧ pythonChunks fp content tree ≠ []
  · rw [if_pos h1] at hc
    rcases pythonChunks_code fp content tree c hc with h | h
    · exact Or.inl h
    · exact Or.inr (Or.inl h)
  · rw [if_neg h1] at hc
    by_cases h2 : (lang = "javascript" ∨ lang = "typescript") ∧
        jsChunks fp content lang bounds ≠ []
    · rw [if_pos h2] at hc
      rcases jsChunks_code fp content lang bounds c hc with h | h
      · exact Or.inr (Or.inl h)
      · exact Or.inr (Or.inr (Or.inl h))
    · rw [if_neg h2] at hc
      rcases chunkByLines_code fp content lang c hc with h | h
      · exact Or.inl h
      · exact Or.inr (Or.inr (Or.inr h))

/-- C2 counterexample: for the one-line file `"a\n"` (fallback strategy)
the single chunk records lines 1–1 and stores the raw content `"a\n"`,
but the join of lines 1–1 is `"a"` — `code` is not the exact line-range
join. -/
theorem c2_counterexample :
    chunkFile none [] "f" "a\n" "text" =
      [{ file_path := "f", symbol := "<file>", code := "a\n",
         language := "text", start_line := 1, end_line := 1 }] ∧
    sliceJoin (splitlines "a\n") 1 1 ≠ "a\n" := by
  constructor <;> decide

/-- Witness for the amended C2 on a concrete fallback chunk. -/
theorem c2_witness :
    exampleFileChunk ∈ chunkFile none [] "f" "a" "text" ∧
    (exampleFileChunk.code = sliceJoin (splitlines "a")
        exampleFileChunk.start_line exampleFileChunk.end_line ∨
      exampleFileChunk.code = pyStrip (sliceJoin (splitlines "a")
        exampleFileChunk.start_line exampleFileChunk.end_line) ∨
      exampleFileChunk.code = pyRstrip (sliceJoin (splitlines "a")
        exampleFileChunk.start_line exampleFileChunk.end_line) ∨
      (exampleFileChunk.symbol = "<file>" ∧ exampleFileChunk.code = "a")) :=
  ⟨by decide, c2_line_range none [] "f" "a" "text" exampleFileChunk
    (by decide)⟩

/-- C4 counterexample: empty content yields no chunks at all — for the
fallback strategy, and equally for a successfully parsed empty Python
file. -/
theorem c4_counterexample :
    chunkFile none [] "f" "" "text" = [] ∧
    chunkFile (some []) [] "f" "" "python" = [] := by
  constructor <;> decide

/-- C4 (amended): for every content with at least one line
(`splitlines content ≠ []`), `chunk_file` returns at least one chunk,
whatever the language and the parse/regex results. -/
theorem c4_nonempty (tree : Option (List PyTop))
    (bounds : List (ℕ × String)) (fp content lang : String)
    (h : splitlines content ≠ []) :
    chunkFile tree bounds fp content lang ≠ [] := by
  simp only [chunkFile]
  by_cases h1 : lang = "python" ∧ pythonChunks fp content tree ≠ []
  · rw [if_pos h1]
    exact h1.2
  · rw [if_neg h1]
    by_cases h2 : (lang = "javascript" ∨ lang = "typescript") ∧
        jsChunks fp content lang bounds ≠ []
    · rw [if_pos h2]
      exact h2.2
    · rw [if_neg h2]
      simp only [chunkByLines]
      rw [if_neg h]
      by_cases hsmall : (splitlines content).length ≤ MAX_CHUNK_LINES
      · rw [if_pos hsmall]
        simp
      · rw [if_neg hsmall]
        have h0 : 0 < (splitlines content).length := by
          cases hsp : splitlines content with
          | nil => exact absurd hsp h
          | cons a t => simp [hsp]
        rw [windowChunks, dif_pos h0]
        simp

/-- Witness for the amended C4 on a concrete one-line file. -/
theorem c4_witness :
    splitlines "x" ≠ [] ∧ chunkFile none [] "f" "x" "text" ≠ [] :=
  ⟨by decide, c4_nonempty none [] "f" "x" "text" (by decide)⟩

/-- C6: a top-level class whose span (`end_lineno - lineno`) is at most
`MAX_CHUNK_LINES` is emitted as a single chunk named by the class;
otherwise it is split into a header chunk `Name.<header>` covering the
class start up to just before its first method (present whenever that
header text is non-blank, as it is for any real `class` line), plus one
chunk `Name.methodName` per method. -/
theorem c6_class_chunks (fp : String) (lines : List String) (name : String)
    (start : ℕ) (endln : Option ℕ) (methods : List PyDef) :
    (pyOr endln start - start ≤ MAX_CHUNK_LINES →
      chunkNode fp lines (.classDef name start endln methods) =
        [CodeChunk.mk fp name (sliceJoin lines start (pyOr endln start))
          "python" start (pyOr endln start)]) ∧
    (MAX_CHUNK_LINES < pyOr endln start - start →
      ∀ m ms, methods = m :: ms →
      pyStrip (sliceJoin lines start (m.lineno - 1)) ≠ "" →
      chunkNode fp lines (.classDef name start endln methods) =
        CodeChunk.mk fp (name ++ ".<header>")
          (sliceJoin lines start (m.lineno - 1)) "python" start
          (m.lineno - 1) ::
        methods.map fun d =>
          CodeChunk.mk fp (name ++ "." ++ d.name)
            (sliceJoin lines d.lineno (pyOr d.end_lineno d.lineno))
            "python" d.lineno (pyOr d.end_lineno d.lineno)) := by
  constructor
  · intro h
    simp only [chunkNode]
    rw [if_pos h]
  · intro h m ms hm hne
    subst hm
    simp only [chunkNode, List.head?_cons]
    rw [if_neg (by omega), if_pos hne]
    rfl

/-- Witness for C6: a 300-line class with two methods is split into a
header chunk plus one chunk per method. -/
theorem c6_witness :
    (MAX_CHUNK_LINES < pyOr (some 300) 1 - 1 ∧
      pyStrip (sliceJoin ["class C:"] 1 (3 - 1)) ≠ "") ∧
    chunkNode "f" ["class C:"]
        (.classDef "C" 1 (some 300)
          [PyDef.mk "m" 3 (some 150), PyDef.mk "n" 151 (some 300)]) =
      CodeChunk.mk "f" ("C" ++ ".<header>")
        (sliceJoin ["class C:"] 1 ((PyDef.mk "m" 3 (some 150)).lineno - 1))
        "python" 1 ((PyDef.mk "m" 3 (some 150)).lineno - 1) ::
      [PyDef.mk "m" 3 (some 150), PyDef.mk "n" 151 (some 300)].map fun d =>
        CodeChunk.mk "f" ("C" ++ "." ++ d.name)
          (sliceJoin ["class C:"] d.lineno (pyOr d.end_lineno d.lineno))
          "python" d.lineno (pyOr d.end_lineno d.lineno) :=
  ⟨⟨by decide, by decide⟩,
    (c6_class_chunks "f" ["class C:"] "C" 1 (some 300)
        [PyDef.mk "m" 3 (some 150), PyDef.mk "n" 151 (some 300)]).2
      (by decide) (PyDef.mk "m" 3 (some 150)) [PyDef.mk "n" 151 (some 300)]
      rfl (by decide)⟩
